import Mathlib

/-!
Verification development for the commitview worktree lifecycle manager.

Shallow embedding of the TypeScript sources:
  * `src/utils/tempDir.ts`       — path naming helpers
  * `src/services/GitService.ts` — VCS gateway (git subprocess calls modelled
    with an oracle for tool-level success/failure, and a filesystem effect)
  * `src/services/WorktreeManager.ts` — worktree lifecycle manager
  * `src/ipc/WindowTracker.ts`   — window pairing registry
  * `src/services/FileCopyService.ts` — link planner / executor

The filesystem is modelled as the set (list) of existing directory paths;
the durable key-value store (`vscode.Memento`) as explicit record lists
threaded through each operation.  External git subprocess outcomes that are
not determined by the modelled state (e.g. whether `git worktree remove`
succeeds on a dirty checkout) are supplied by boolean oracles.
-/

namespace CommitView

/-- Node `path.basename` (posix): strip trailing separators, then keep the
part after the last separator. -/
def basename (p : String) : String :=
  let cs := (p.data.reverse.dropWhile (fun c => c == '/'))
  String.mk (cs.takeWhile (fun c => c != '/')).reverse

/-- Embedding of `tempDir.ts` / `getTempDir`: `os.tmpdir()`, modelled as the
posix default temporary directory. -/
def getTempDir : String := "/tmp"

/-- JS `String.prototype.substring(0, n)`: the first `n` characters. -/
def strTake (s : String) (n : Nat) : String := String.mk (s.data.take n)

/-- Embedding of `tempDir.ts` / the sanitiser `repoName.replace(/[^a-zA-Z0-9-_]/g, '-')`. -/
def sanitizeRepoName (s : String) : String :=
  String.mk (s.toList.map (fun c => if c.isAlphanum || c = '-' || c = '_' then c else '-'))

/-- Embedding of `tempDir.ts` / `generateWorktreePath` as called by
`WorktreeManager.createWorktree` (two arguments, so `commitSubject` is
`undefined` and the folder name is `temp-{repo}-{sha}`). -/
def generateWorktreePath (repoName shortSha : String) : String :=
  getTempDir ++ "/" ++ ("temp-" ++ strTake (sanitizeRepoName repoName) 20 ++ "-" ++ shortSha)

/-- JS `String.prototype.startsWith`: the pattern's characters are a prefix
of the string's characters. -/
def strStartsWith (s pre : String) : Bool := pre.data.isPrefixOf s.data

/-- Embedding of `tempDir.ts` / `isCommitViewTempPath`. -/
def isCommitViewTempPath (dirPath : String) : Bool :=
  strStartsWith (basename dirPath) "temp-" || strStartsWith (basename dirPath) "commitview-"

/-- Predicate: `q` lies in the directory subtree rooted at `p` (it is `p` itself or a
descendant path). -/
def pathWithin (p q : String) : Bool :=
  q == p || (p ++ "/").isPrefixOf q

/-- Embedding of `WorktreeManager.ts` / `WorktreeInfo`. -/
structure WorktreeInfo where
  id : String
  path : String
  commitSha : String
  commitMessage : String
  originalRepoPath : String
  createdAt : Nat
deriving DecidableEq, Repr

/-- The world a `WorktreeManager` operation acts on: the durable registry
(`globalState` under the `commitview.worktrees` key), the filesystem
(existing directory paths), the set of resolvable commits per repository,
and the repo-root resolution used by `getRepoRoot`/`getRepoName`. -/
structure World where
  registry : List WorktreeInfo
  fs : List String
  commits : List (String × String)
  repoRoots : List (String × String)
deriving DecidableEq, Repr

/-- Embedding of `fs.existsSync`. -/
def World.existsDir (w : World) (p : String) : Bool := w.fs.contains p

/-- Effect of recursively deleting the directory `p` (both `fs.rmSync` with
`recursive` and a successful `git worktree remove` delete the subtree). -/
def World.deleteDir (w : World) (p : String) : World :=
  { w with fs := w.fs.filter (fun q => ¬ pathWithin p q) }

/-- Embedding of `tempDir.ts` / `removeDirectory`: delete only when the
directory exists (`force: true` makes the delete itself non-throwing). -/
def removeDirectory (w : World) (p : String) : World :=
  if w.existsDir p then w.deleteDir p else w

/-- Embedding of `GitService.commitExists`: `rev-parse --verify sha^{commit}`
succeeds exactly when the repository can resolve the revision. -/
def commitExists (w : World) (repoPath sha : String) : Bool :=
  w.commits.contains (repoPath, sha)

/-- Typed errors of `src/utils/errors.ts`, plus a marker for a raw
`git rev-parse` failure (repo-root resolution outside a repository). -/
inductive CVErr where
  | commitNotFound
  | worktreeAlreadyExists
  | worktreeCreationFailed
  | notARepo
deriving DecidableEq, Repr

/-- Observable side-effect events of a lifecycle operation, in the order
the source issues them. -/
inductive Ev where
  | gitAdd (repoPath wtPath sha : String)
  | gitRemove (repoPath wtPath : String) (force : Bool)
  | rmDir (p : String)
  | prune (repoPath : String)
  | registryWrite
deriving DecidableEq, Repr

/-- Outcome of `git worktree add` when it is actually invoked: the real tool
fails with a message containing "already exists" when the target path
exists; any other tool-level failure (disk, permissions, …) is supplied by
the oracle `addOk`. -/
structure GitService where
  addOk : Bool
  gracefulRemoveOk : Bool
  forcedRemoveOk : Bool
  pruneOk : Bool
deriving DecidableEq, Repr

/-- Embedding of `GitService.createWorktree` (`GitService.ts:64-93`):
verify the revision first (`CommitNotFound` before any `worktree add` is
attempted); then run `git worktree add --detach`; map an "already exists"
failure to `WorktreeAlreadyExists`, any other failure to
`WorktreeCreationFailed`; on success the checkout directory appears. -/
def GitService.createWorktree (g : GitService) (w : World)
    (repoPath wtPath sha : String) : World × List Ev × Option CVErr :=
  if ¬ commitExists w repoPath sha then
    (w, [], some .commitNotFound)
  else if w.existsDir wtPath then
    (w, [.gitAdd repoPath wtPath sha], some .worktreeAlreadyExists)
  else if ¬ g.addOk then
    (w, [.gitAdd repoPath wtPath sha], some .worktreeCreationFailed)
  else
    ({ w with fs := wtPath :: w.fs }, [.gitAdd repoPath wtPath sha], none)

/-- Embedding of `GitService.removeWorktree` (`GitService.ts:95-121`): run
`git worktree remove [--force]`; success (decided by the oracle for the
respective tier) deletes the checkout subtree. -/
def GitService.removeWorktree (ok : Bool) (w : World)
    (repoPath wtPath : String) (force : Bool) : World × List Ev × Bool :=
  if ok then (w.deleteDir wtPath, [.gitRemove repoPath wtPath force], true)
  else (w, [.gitRemove repoPath wtPath force], false)

/-- Embedding of `WorktreeManager.getWorktreeInfo` (`WorktreeManager.ts:89-92`):
first registry record with an exact path match. -/
def getWorktreeInfo (w : World) (p : String) : Option WorktreeInfo :=
  w.registry.find? (fun r => r.path == p)

/-- Embedding of `WorktreeManager.untrackWorktree` (`WorktreeManager.ts:163-167`). -/
def untrackWorktree (w : World) (p : String) : World :=
  { w with registry := w.registry.filter (fun r => r.path != p) }

/-- Embedding of `WorktreeManager.createWorktree` (`WorktreeManager.ts:23-46`):
resolve the repo name, derive the target path, delegate creation to the
gateway, and only after gateway success append the new record to the
durable registry.  `now` stands for `Date.now()`. -/
def createWorktree (g : GitService) (w : World)
    (repoPath sha msg : String) (now : Nat) :
    World × List Ev × Except CVErr WorktreeInfo :=
  match (w.repoRoots.lookup repoPath) with
  | none => (w, [], .error .notARepo)
  | some root =>
    let repoName := basename root
    let shortSha := strTake sha 7
    let wtPath := generateWorktreePath repoName shortSha
    match g.createWorktree w repoPath wtPath sha with
    | (w1, tr, some e) => (w1, tr, .error e)
    | (w1, tr, none) =>
      let wt : WorktreeInfo :=
        { id := repoName ++ "-" ++ shortSha ++ "-" ++ toString now
          path := wtPath
          commitSha := sha
          commitMessage := msg
          originalRepoPath := repoPath
          createdAt := now }
      ({ w1 with registry := w1.registry ++ [wt] }, tr ++ [.registryWrite], .ok wt)

/-- Embedding of `WorktreeManager.removeWorktree` (`WorktreeManager.ts:48-78`):
if the path is tracked, try graceful git removal, then forced, then direct
directory deletion (each tier only after the previous failed); always
attempt a prune with its failure swallowed; finally untrack the record.
If the path is untracked, delete the directory only when it matches the
temp naming convention and exists. -/
def removeWorktree (g : GitService) (w : World) (p : String) : World × List Ev :=
  match getWorktreeInfo w p with
  | some wt =>
    let repo := wt.originalRepoPath
    let step : World × List Ev :=
      match GitService.removeWorktree g.gracefulRemoveOk w repo p false with
      | (w', tr, true) => (w', tr)
      | (_, tr, false) =>
        match GitService.removeWorktree g.forcedRemoveOk w repo p true with
        | (w', tr', true) => (w', tr ++ tr')
        | (_, tr', false) => (removeDirectory w p, tr ++ tr' ++ [Ev.rmDir p])
    let tr2 := step.2 ++ [Ev.prune repo]
    (untrackWorktree step.1 p, tr2 ++ [Ev.registryWrite])
  | none =>
    if isCommitViewTempPath p && w.existsDir p then
      (w.deleteDir p, [.rmDir p])
    else
      (w, [])

/-- Embedding of `WorktreeManager.isCommitViewWorktree` (`WorktreeManager.ts:80-87`). -/
def isCommitViewWorktree (w : World) (p : String) : Bool :=
  if ¬ isCommitViewTempPath p then false
  else w.registry.any (fun r => r.path == p)

/-- The fixed staleness threshold of `cleanupStaleWorktrees`:
`24 * 60 * 60 * 1000` milliseconds. -/
def maxAgeMs : Nat := 24 * 60 * 60 * 1000

/-- One iteration of the `cleanupStaleWorktrees` loop
(`WorktreeManager.ts:119-148`) on the snapshot record `wt`:
untrack when the checkout directory is gone; delete then untrack when the
origin repository is gone; otherwise attempt full removal when older than
24 hours (`removeWorktree` is modelled total, so the surrounding
`try/catch` that swallows its failures is vacuous here and the counter
always advances in that branch). -/
def cleanupStep (o : WorktreeInfo → GitService) (now : Nat)
    (acc : World × Nat) (wt : WorktreeInfo) : World × Nat :=
  if ¬ acc.1.existsDir wt.path then
    (untrackWorktree acc.1 wt.path, acc.2 + 1)
  else if ¬ acc.1.existsDir wt.originalRepoPath then
    (untrackWorktree (removeDirectory acc.1 wt.path) wt.path, acc.2 + 1)
  else if now - wt.createdAt > maxAgeMs then
    ((removeWorktree (o wt) acc.1 wt.path).1, acc.2 + 1)
  else
    acc

/-- Embedding of `WorktreeManager.cleanupStaleWorktrees`
(`WorktreeManager.ts:115-151`): iterate the snapshot of the tracked
registry taken at entry, applying `cleanupStep`, and return the final
world together with the count of records cleaned. -/
def cleanupStaleWorktrees (o : WorktreeInfo → GitService) (w : World)
    (now : Nat) : World × Nat :=
  w.registry.foldl (cleanupStep o now) (w, 0)

/-- Embedding of `WindowTracker.ts` / `WindowPair`. -/
structure WindowPair where
  id : String
  originalPath : String
  worktreePath : String
  createdAt : Nat
deriving DecidableEq, Repr

/-- Embedding of `WindowTracker.registerWindowPair` (`WindowTracker.ts:15-31`):
filter out pairs whose `originalPath` equals the new `originalPath` or
whose `worktreePath` equals the new `worktreePath`, then append the new
pair.  `newId` stands for the generated random id, `now` for `Date.now()`. -/
def registerWindowPair (pairs : List WindowPair)
    (originalPath worktreePath newId : String) (now : Nat) : List WindowPair :=
  (pairs.filter (fun pr =>
      pr.originalPath != originalPath && pr.worktreePath != worktreePath))
    ++ [{ id := newId, originalPath := originalPath,
          worktreePath := worktreePath, createdAt := now }]

/-- A pair touches a path when the path occurs on either of its sides. -/
def touches (pr : WindowPair) (p : String) : Bool :=
  pr.originalPath == p || pr.worktreePath == p

/-- Case-insensitive literal character match (the generated regex carries
the `i` flag). -/
def globChar (p c : Char) : Bool := p.toLower == c.toLower

/-- Semantics of the anchored regex `FileCopyService.matchesGlob` compiles a
glob pattern to (`FileCopyService.ts:124-130`): `.` is escaped to a literal
dot, `*` becomes `.*`, `?` becomes `.`, other characters match literally
and case-insensitively.  (Patterns containing further regex
metacharacters are outside the modelled pattern language.) -/
def globMatch : List Char → List Char → Bool
  | [], s => s.isEmpty
  | '*' :: ps, s => s.tails.any (fun t => globMatch ps t)
  | '?' :: ps, _ :: s => globMatch ps s
  | '?' :: _, [] => false
  | p :: ps, c :: s => globChar p c && globMatch ps s
  | _ :: _, [] => false

/-- Embedding of `FileCopyService.matchesGlob`. -/
def matchesGlob (filename pattern : String) : Bool :=
  globMatch pattern.toList filename.toList

/-- A source directory tree as observed through `fs.readdirSync` with
`withFileTypes`. -/
inductive FsTree where
  | file (name : String)
  | dir (name : String) (children : List FsTree)

/-- Name of a directory entry (`entry.name`). -/
def FsTree.name : FsTree → String
  | .file n => n
  | .dir n _ => n

/-- Embedding of `entry.isDirectory()`. -/
def FsTree.isDir : FsTree → Bool
  | .file _ => false
  | .dir _ _ => true

/-- The relative path computed by `findMatchingFilesRecursive`:
`currentDir ? path.join(currentDir, entry.name) : entry.name`. -/
def joinRel (cur n : String) : String :=
  if cur = "" then n else cur ++ "/" ++ n

mutual

/-- Per-entry step of `FileCopyService.findMatchingFilesRecursive`
(`FileCopyService.ts:95-103`): a file contributes its relative path when
its name matches some pattern; a directory is recursed into unless its
name is in `skipDirs` or starts with `.git`. -/
def findEntry (patterns skipDirs : List String) (cur : String) : FsTree → List String
  | .file n =>
    if patterns.any (fun p => matchesGlob n p) then [joinRel cur n] else []
  | .dir n cs =>
    if skipDirs.contains n || n.startsWith ".git" then []
    else findList patterns skipDirs (joinRel cur n) cs

/-- Embedding of `FileCopyService.findMatchingFilesRecursive`
(`FileCopyService.ts:83-109`) over the listed entries of one directory,
in listing order. -/
def findList (patterns skipDirs : List String) (cur : String) : List FsTree → List String
  | [] => []
  | e :: es => findEntry patterns skipDirs cur e ++ findList patterns skipDirs cur es

end

/-- Embedding of `FileCopyService.findMatchingEntries`
(`FileCopyService.ts:111-122`) for `type = 'directory'` as used by
`linkConfigFiles`: root-level entries that are directories and match some
directory pattern, by name. -/
def findMatchingDirs (entries : List FsTree) (patterns : List String) : List String :=
  ((entries.filter FsTree.isDir).filter
      (fun e => patterns.any (fun p => matchesGlob e.name p))).map FsTree.name

/-- A node of the target-side filesystem used by link execution. -/
inductive FsNode where
  | fileNode (content : String)
  | dirNode
  | symlinkNode (target : String)
deriving DecidableEq, Repr

/-- Target-side filesystem: existing paths with their content. -/
abbrev LinkFs := List (String × FsNode)

/-- Embedding of `fs.existsSync` on the target-side filesystem. -/
def lfsExists (fs : LinkFs) (p : String) : Bool := (fs.lookup p).isSome

/-- Node `path.dirname` (posix) on joined paths: drop the last component. -/
def dirname (p : String) : String :=
  String.intercalate "/" ((p.splitOn "/").dropLast)

/-- All `/`-boundary prefixes of a path, shortest first, ending with the
path itself. -/
def pathPrefixes (p : String) : List String :=
  (List.range (p.splitOn "/").length).map
    (fun k => String.intercalate "/" ((p.splitOn "/").take (k + 1)))

/-- Embedding of `FileCopyService.ensureParentDir`
(`FileCopyService.ts:76-81`): when the parent of the target path does not
exist, `mkdirSync` with `recursive` creates it and every missing
ancestor. -/
def ensureParentDir (fs : LinkFs) (targetPath : String) : LinkFs :=
  let parent := dirname targetPath
  if lfsExists fs parent then fs
  else (pathPrefixes parent).foldl
    (fun acc q => if lfsExists acc q then acc else acc ++ [(q, FsNode.dirNode)]) fs

/-- Embedding of the `EntryType` alias of `FileCopyService.ts`. -/
inductive EntryType where
  | file
  | directory
deriving DecidableEq, Repr

/-- Embedding of the `FileCopyResult` record of `FileCopyService.ts`. -/
structure FileCopyResult where
  linked : List String
  skipped : List String
  failed : List String
  warnings : List String
deriving DecidableEq, Repr

/-- The display name `linkEntry` reports: directories carry a trailing
slash. -/
def displayNameOf (t : EntryType) (rel : String) : String :=
  match t with
  | .directory => rel ++ "/"
  | .file => rel

/-- Embedding of `FileCopyService.linkEntry` (`FileCopyService.ts:50-74`):
if the target path already exists, record `skipped` and return with the
filesystem untouched; otherwise ensure the parent directory and create the
symlink — the oracle `symlinkOk` decides whether `symlinkSync` succeeds;
on failure record `failed` plus a warning and keep going. -/
def linkEntry (symlinkOk : Bool) (sourceDir targetDir rel : String)
    (t : EntryType) (fs : LinkFs) (res : FileCopyResult) :
    LinkFs × FileCopyResult :=
  let sourcePath := sourceDir ++ "/" ++ rel
  let targetPath := targetDir ++ "/" ++ rel
  let d := displayNameOf t rel
  if lfsExists fs targetPath then
    (fs, { res with skipped := res.skipped ++ [d] })
  else
    let fs1 := ensureParentDir fs targetPath
    if symlinkOk then
      (fs1 ++ [(targetPath, FsNode.symlinkNode sourcePath)],
       { res with linked := res.linked ++ [d] })
    else
      (fs1,
       { res with failed := res.failed ++ [d],
                  warnings := res.warnings ++
                    ["Failed to link " ++ d ++ ": symlink error"] })

/-- The `for (const file of files) this.linkEntry(...)` loop of
`linkConfigFiles` (`FileCopyService.ts:39-45`): every planned entry is
processed in order; `linkEntry` catches its own errors, so no entry aborts
the rest. -/
def linkAll (symlinkOk : String → Bool) (sourceDir targetDir : String)
    (t : EntryType) (rels : List String) (fs : LinkFs)
    (res : FileCopyResult) : LinkFs × FileCopyResult :=
  match rels with
  | [] => (fs, res)
  | r :: rs =>
    let step := linkEntry (symlinkOk r) sourceDir targetDir r t fs res
    linkAll symlinkOk sourceDir targetDir t rs step.1 step.2

/-! Helper lemmas. -/

theorem takeWhile_append_sat (p : Char → Bool) (xs ys : List Char) (y : Char)
    (hxs : ∀ x ∈ xs, p x = true) (hy : p y = false) :
    (xs ++ y :: ys).takeWhile p = xs := by
  induction xs with
  | nil => simp [List.takeWhile_cons, hy]
  | cons a as ih =>
    have ha : p a = true := hxs a (by simp)
    simp only [List.cons_append, List.takeWhile_cons, ha, if_true]
    rw [ih (fun x hx => hxs x (by simp [hx]))]

theorem basename_append_single (dir name : String)
    (hne : name ≠ "") (hs : ('/' : Char) ∉ name.data) :
    basename (dir ++ "/" ++ name) = name := by
  have hdata : (dir ++ "/" ++ name).data = dir.data ++ '/' :: name.data := by
    cases dir with
    | mk d =>
      cases name with
      | mk n => simp [String.data_append]
  have hnd : name.data ≠ [] := by
    intro h
    apply hne
    cases name with
    | mk n =>
      have h' : n = [] := h
      subst h'
      rfl
  obtain ⟨c, rest, hcr⟩ : ∃ c rest, name.data.reverse = c :: rest := by
    cases hrev : name.data.reverse with
    | nil => exact absurd (by simpa using congrArg List.reverse hrev) hnd
    | cons c rest => exact ⟨c, rest, rfl⟩
  have hmem : ∀ x ∈ name.data.reverse, x ≠ '/' := by
    intro x hx
    intro hxe
    exact hs (by simpa [hxe] using (List.mem_reverse.mp hx))
  have hc : c ≠ '/' := hmem c (by simp [hcr])
  unfold basename
  rw [hdata]
  simp only [List.reverse_append, List.reverse_cons]
  have harr : name.data.reverse ++ ['/'] ++ dir.data.reverse
      = name.data.reverse ++ '/' :: dir.data.reverse := by simp
  rw [hcr] at harr ⊢
  simp only [List.cons_append] at harr ⊢
  rw [harr]
  have hdrop : (c :: (rest ++ '/' :: dir.data.reverse)).dropWhile (fun x => x == '/')
      = c :: (rest ++ '/' :: dir.data.reverse) := by
    rw [List.dropWhile_cons]
    simp [hc]
  rw [hdrop]
  have htake : ((c :: rest) ++ '/' :: dir.data.reverse).takeWhile (fun x => x != '/')
      = c :: rest := by
    apply takeWhile_append_sat
    · intro x hx
      have : x ≠ '/' := hmem x (by rw [hcr]; exact hx)
      simp [this]
    · simp
  simp only [List.cons_append] at htake
  rw [htake, ← hcr, List.reverse_reverse]

theorem strStartsWith_of_prefix_of_data (s pre : String) (h : pre.data <+: s.data) :
    strStartsWith s pre = true := by
  unfold strStartsWith
  rw [ List.isPrefixOf_iff_prefix]
  exact h

theorem strStartsWith_append (pre rest : String) :
    strStartsWith (pre ++ rest) pre = true := by
  apply strStartsWith_of_prefix_of_data
  rw [String.data_append]
  exact List.prefix_append _ _

theorem sanitizeRepoName_no_slash (s : String) :
    ('/' : Char) ∉ (sanitizeRepoName s).data := by
  intro hmem
  have hm : ('/' : Char) ∈ s.data.map
      (fun c => if c.isAlphanum || c = '-' || c = '_' then c else '-') := hmem
  obtain ⟨c, _, hc⟩ := List.mem_map.mp hm
  by_cases hcond : (c.isAlphanum || c = '-' || c = '_') = true
  · rw [if_pos hcond] at hc
    subst hc
    simp at hcond
  · rw [if_neg hcond] at hc
    exact absurd hc (by decide)

theorem strTake_data (s : String) (n : Nat) : (strTake s n).data = s.data.take n := rfl

theorem take_no_slash (s : String) (n : Nat) (h : ('/' : Char) ∉ s.data) :
    ('/' : Char) ∉ (strTake s n).data := by
  intro hm
  rw [strTake_data] at hm
  exact h (List.take_subset n s.data hm)

theorem basename_generateWorktreePath (repoName shortSha : String)
    (hs : ('/' : Char) ∉ shortSha.data) :
    basename (generateWorktreePath repoName shortSha)
      = "temp-" ++ strTake (sanitizeRepoName repoName) 20 ++ "-" ++ shortSha := by
  unfold generateWorktreePath getTempDir
  apply basename_append_single
  · intro h
    have hd := congrArg String.data h
    simp only [String.data_append] at hd
    simp at hd
  · intro hm
    simp only [String.data_append, List.mem_append] at hm
    rcases hm with ((h1 | h2) | h3) | h4
    · exact absurd h1 (by decide)
    · exact take_no_slash _ 20 (sanitizeRepoName_no_slash repoName) h2
    · exact absurd h3 (by decide)
    · exact hs h4

/-- The generated worktree path satisfies the temp naming convention
whenever the (truncated) revision string contains no separator. -/
theorem generateWorktreePath_isTempPath (repoName shortSha : String)
    (hs : ('/' : Char) ∉ shortSha.data) :
    isCommitViewTempPath (generateWorktreePath repoName shortSha) = true := by
  unfold isCommitViewTempPath
  rw [basename_generateWorktreePath repoName shortSha hs]
  have : strStartsWith ("temp-" ++ strTake (sanitizeRepoName repoName) 20 ++ "-" ++ shortSha)
      "temp-" = true := by
    apply strStartsWith_of_prefix_of_data
    simp only [String.data_append, List.append_assoc]
    exact List.prefix_append _ _
  rw [this]
  simp

/-! Claim C10. -/

/-- C10: `isCommitViewTempPath` inspects only the final path component —
it is true exactly when the basename starts with `temp-` or
`commitview-`; it does not require the path to lie under the system
temporary directory, so a single-component name with one of these
prefixes satisfies the convention under any parent directory at all. -/
theorem tempPathNaming_basename_only :
    (∀ p, isCommitViewTempPath p =
        (strStartsWith (basename p) "temp-" ||
         strStartsWith (basename p) "commitview-"))
    ∧ (∀ dir name, name ≠ "" → ('/' : Char) ∉ name.data →
        isCommitViewTempPath (dir ++ "/" ++ name) =
          (strStartsWith name "temp-" || strStartsWith name "commitview-"))
    ∧ isCommitViewTempPath "/home/user/temp-project" = true := by
  refine ⟨fun p => rfl, fun dir name hne hs => ?_, by decide⟩
  unfold isCommitViewTempPath
  rw [basename_append_single dir name hne hs]

/-- Witness for C10 at a concrete non-temp parent directory. -/
theorem tempPathNaming_basename_only_witness :
    isCommitViewTempPath ("/home/user" ++ "/" ++ "temp-proj") =
      (strStartsWith "temp-proj" "temp-" || strStartsWith "temp-proj" "commitview-") :=
  tempPathNaming_basename_only.2.1 "/home/user" "temp-proj" (by decide) (by decide)

theorem gitCreate_error_world (g : GitService) (w : World) (a b c : String)
    (w1 : World) (tr : List Ev) (e : CVErr)
    (h : g.createWorktree w a b c = (w1, tr, some e)) : w1 = w := by
  unfold GitService.createWorktree at h
  split at h
  · simp_all
  · split at h
    · simp_all
    · split at h
      · simp_all
      · simp_all

theorem gitCreate_ok_inv (g : GitService) (w : World) (a b c : String)
    (w1 : World) (tr : List Ev)
    (h : g.createWorktree w a b c = (w1, tr, none)) :
    commitExists w a c = true ∧ w.existsDir b = false ∧ g.addOk = true
      ∧ w1 = { w with fs := b :: w.fs } ∧ tr = [Ev.gitAdd a b c] := by
  unfold GitService.createWorktree at h
  split at h
  · simp_all
  · split at h
    · simp_all
    · split at h
      · simp_all
      · simp_all

theorem gitCreate_commitNotFound (g : GitService) (w : World) (a b c : String)
    (h : commitExists w a c = false) :
    g.createWorktree w a b c = (w, [], some .commitNotFound) := by
  unfold GitService.createWorktree
  rw [if_pos]
  simp [h]

theorem createWorktree_error_world (g : GitService) (w : World)
    (repoPath sha msg : String) (now : Nat) (w' : World) (tr : List Ev) (e : CVErr)
    (h : createWorktree g w repoPath sha msg now = (w', tr, .error e)) : w' = w := by
  unfold createWorktree at h
  split at h
  · simp_all
  · dsimp only at h
    split at h
    · rename_i heq
      have := gitCreate_error_world _ _ _ _ _ _ _ _ heq
      simp_all
    · simp_all

theorem createWorktree_ok_inv (g : GitService) (w : World)
    (repoPath sha msg : String) (now : Nat) (w' : World) (tr : List Ev)
    (r : WorktreeInfo)
    (h : createWorktree g w repoPath sha msg now = (w', tr, .ok r)) :
    ∃ root, w.repoRoots.lookup repoPath = some root
      ∧ r.path = generateWorktreePath (basename root) (strTake sha 7)
      ∧ w'.registry = w.registry ++ [r]
      ∧ commitExists w repoPath sha = true
      ∧ tr = [Ev.gitAdd repoPath r.path sha, Ev.registryWrite] := by
  unfold createWorktree at h
  split at h
  · simp_all
  · rename_i root hroot
    dsimp only at h
    split at h
    · simp_all
    · rename_i w1 tr1 heq
      obtain ⟨hce, _, _, hw1, htr1⟩ := gitCreate_ok_inv _ _ _ _ _ _ _ heq
      rw [Prod.ext_iff] at h
      obtain ⟨hw', hrest⟩ := h
      rw [Prod.ext_iff] at hrest
      obtain ⟨htr, hr⟩ := hrest
      injection hr with hr'
      subst hr'
      subst hw'
      subst htr
      refine ⟨root, hroot, rfl, ?_, hce, ?_⟩
      · show w1.registry ++ _ = w.registry ++ _
        rw [hw1]
      · rw [htr1]
        rfl

theorem isCommitViewWorktree_iff (w : World) (p : String) :
    isCommitViewWorktree w p = true ↔
      (isCommitViewTempPath p = true ∧ ∃ r ∈ w.registry, r.path = p) := by
  rw [isCommitViewWorktree]
  split
  · rename_i hnt
    simp only [Bool.not_eq_true] at hnt
    simp [hnt]
  · rename_i hnt
    have ht : isCommitViewTempPath p = true := by
      by_contra hc
      exact hnt (by simpa using hc)
    simp [ht, List.any_eq_true, beq_iff_eq]

/-! Claim C1. -/

/-- C1: `createWorktree` is atomic with respect to the durable registry —
on any gateway failure the error propagates and the registry is unchanged
(no partial record); a non-existent revision fails with
revision-not-found before any worktree-add is attempted (empty trace);
and on success exactly one record is appended, with the registry write
strictly after the gateway's add succeeded. -/
theorem createWorktree_atomic (g : GitService) (w : World)
    (repoPath sha msg : String) (now : Nat) :
    (∀ w' tr e, createWorktree g w repoPath sha msg now = (w', tr, .error e) →
        w'.registry = w.registry)
    ∧ (∀ root, w.repoRoots.lookup repoPath = some root →
        commitExists w repoPath sha = false →
        createWorktree g w repoPath sha msg now = (w, [], .error .commitNotFound))
    ∧ (∀ w' tr r, createWorktree g w repoPath sha msg now = (w', tr, .ok r) →
        w'.registry = w.registry ++ [r]
        ∧ tr = [Ev.gitAdd repoPath r.path sha, Ev.registryWrite]) := by
  refine ⟨?_, ?_, ?_⟩
  · intro w' tr e h
    rw [createWorktree_error_world g w repoPath sha msg now w' tr e h]
  · intro root hroot hce
    unfold createWorktree
    rw [hroot]
    dsimp only
    rw [gitCreate_commitNotFound g w repoPath (generateWorktreePath (basename root)
      (strTake sha 7)) sha hce]
  · intro w' tr r h
    obtain ⟨root, _, _, hreg, _, htr⟩ := createWorktree_ok_inv _ _ _ _ _ _ _ _ _ h
    exact ⟨hreg, htr⟩

def allOkGit : GitService := ⟨true, true, true, true⟩

def sampleWorld : World :=
  { registry := []
    fs := []
    commits := [("/repo", "abc1234")]
    repoRoots := [("/repo", "/repo")] }

def sampleRecord : WorktreeInfo :=
  { id := "repo-abc1234-7"
    path := "/tmp/temp-repo-abc1234"
    commitSha := "abc1234"
    commitMessage := "m"
    originalRepoPath := "/repo"
    createdAt := 7 }

/-- Witness for C1: a non-existent revision on a concrete world fails
with revision-not-found, leaving the world untouched; a successful
creation appends exactly the new record. -/
theorem createWorktree_atomic_witness :
    createWorktree allOkGit sampleWorld "/repo" "zzz" "m" 0 =
      (sampleWorld, [], .error .commitNotFound) :=
  (createWorktree_atomic allOkGit sampleWorld "/repo" "zzz" "m" 0).2.1
    "/repo" (by decide) (by decide)

/-! Claim C7. -/

/-- C7: `isSystemWorktree` is true exactly when the path matches the temp
naming convention and is present in the tracked registry; every record
produced by `createWorktree` satisfies it, and any path absent from the
registry fails it even when the naming convention matches. -/
theorem isSystemWorktree_characterization :
    (∀ w p, isCommitViewWorktree w p = true ↔
        (isCommitViewTempPath p = true ∧ ∃ r ∈ w.registry, r.path = p))
    ∧ (∀ g w repoPath sha msg now w' tr r,
        ('/' : Char) ∉ sha.data →
        createWorktree g w repoPath sha msg now = (w', tr, .ok r) →
        isCommitViewWorktree w' r.path = true)
    ∧ (∀ w p, (∀ r ∈ w.registry, r.path ≠ p) →
        isCommitViewWorktree w p = false) := by
  refine ⟨isCommitViewWorktree_iff, ?_, ?_⟩
  · intro g w repoPath sha msg now w' tr r hs h
    obtain ⟨root, _, hpath, hreg, _, _⟩ := createWorktree_ok_inv _ _ _ _ _ _ _ _ _ h
    apply (isCommitViewWorktree_iff w' r.path).mpr
    refine ⟨?_, r, ?_, rfl⟩
    · rw [hpath]
      exact generateWorktreePath_isTempPath _ _ (take_no_slash sha 7 hs)
    · rw [hreg]
      simp
  · intro w p hnone
    rw [isCommitViewWorktree]
    split
    · rfl
    · simp only [List.any_eq_false, beq_iff_eq]
      exact hnone

/-- Witness for C7: the record created on a concrete world is recognised;
an unregistered temp-named path is not. -/
theorem isSystemWorktree_characterization_witness :
    isCommitViewWorktree
      { registry := [sampleRecord], fs := [sampleRecord.path]
        commits := [("/repo", "abc1234")], repoRoots := [("/repo", "/repo")] }
      sampleRecord.path = true
    ∧ isCommitViewWorktree sampleWorld "/tmp/temp-orphan" = false :=
  ⟨isSystemWorktree_characterization.2.1 allOkGit sampleWorld "/repo" "abc1234"
      "m" 7 _ [Ev.gitAdd "/repo" sampleRecord.path "abc1234", Ev.registryWrite]
      sampleRecord (by decide) rfl,
   isSystemWorktree_characterization.2.2 sampleWorld "/tmp/temp-orphan" (by decide)⟩

/-! Claim C2. -/

/-- C2 counterexample: eviction in `registerWindowPair` matches sides
separately, not "either path on either side": after `register(a,b)` then
`register(b,c)`, the path `b` appears in two active pairs (the old pair
`(a,b)` survives because `b` occurs there as a worktree path while the new
registration only evicts pairs with `b` as an origin path). -/
theorem registerWindowPair_cross_side_not_evicted :
    ((registerWindowPair (registerWindowPair [] "a" "b" "id1" 0) "b" "c" "id2" 1).filter
        (fun pr => touches pr "b")).length = 2 := by decide

/-- C2 amended: `registerWindowPair` removes exactly the pairs whose
`originalPath` equals the new origin or whose `worktreePath` equals the
new worktree path (same-side matching only — a pair where one of the two
paths appears on the opposite side is not evicted), then appends one new
pair.  Consequently each path occurs in at most one pair per side
(exactly one pair carries the new origin on the origin side and exactly
one carries the new worktree path on the worktree side), and
`register(a,b)` followed by `register(a,c)` from an empty registry leaves
exactly the single pair `(a,c)`. -/
theorem registerWindowPair_same_side_eviction :
    (∀ pairs op wp newId now (pr : WindowPair),
        pr ∈ registerWindowPair pairs op wp newId now ↔
          ((pr ∈ pairs ∧ pr.originalPath ≠ op ∧ pr.worktreePath ≠ wp)
            ∨ pr = { id := newId, originalPath := op, worktreePath := wp,
                     createdAt := now }))
    ∧ (∀ pairs op wp newId now,
        ((registerWindowPair pairs op wp newId now).filter
            (fun pr => pr.originalPath == op)).length = 1)
    ∧ (∀ pairs op wp newId now,
        ((registerWindowPair pairs op wp newId now).filter
            (fun pr => pr.worktreePath == wp)).length = 1)
    ∧ (∀ a b c id1 id2 t1 t2,
        registerWindowPair (registerWindowPair [] a b id1 t1) a c id2 t2 =
          [{ id := id2, originalPath := a, worktreePath := c, createdAt := t2 }]) := by
  refine ⟨?_, ?_, ?_, ?_⟩
  · intro pairs op wp newId now pr
    simp [registerWindowPair, List.mem_filter, List.mem_append, bne_iff_ne,
      and_assoc]
  · intro pairs op wp newId now
    rw [registerWindowPair, List.filter_append, List.length_append]
    have h1 : (pairs.filter (fun pr =>
        pr.originalPath != op && pr.worktreePath != wp)).filter
          (fun pr => pr.originalPath == op) = [] := by
      rw [List.filter_eq_nil_iff]
      intro pr hpr
      have h2 := (List.mem_filter.mp hpr).2
      simp only [Bool.and_eq_true, bne_iff_ne] at h2
      simp [h2.1]
    rw [h1]
    simp
  · intro pairs op wp newId now
    rw [registerWindowPair, List.filter_append, List.length_append]
    have h1 : (pairs.filter (fun pr =>
        pr.originalPath != op && pr.worktreePath != wp)).filter
          (fun pr => pr.worktreePath == wp) = [] := by
      rw [List.filter_eq_nil_iff]
      intro pr hpr
      have h2 := (List.mem_filter.mp hpr).2
      simp only [Bool.and_eq_true, bne_iff_ne] at h2
      simp [h2.2]
    rw [h1]
    simp
  · intro a b c id1 id2 t1 t2
    simp [registerWindowPair]

/-! Claims C3, C4 and C8. -/

theorem pathWithin_self (p : String) : pathWithin p p = true := by
  simp [pathWithin]

theorem existsDir_deleteDir (w : World) (p : String) :
    (w.deleteDir p).existsDir p = false := by
  have h : p ∉ w.fs.filter (fun q => ¬ pathWithin p q) := by
    intro hm
    have h2 := (List.mem_filter.mp hm).2
    simp [pathWithin_self] at h2
  unfold World.deleteDir World.existsDir
  simpa using h

def trackedWorld : World :=
  { registry := [sampleRecord]
    fs := [sampleRecord.path]
    commits := [("/repo", "abc1234")]
    repoRoots := [("/repo", "/repo")] }

/-- C3: for a tracked worktree, removal follows the three-tier ordered
fallback — graceful VCS removal; forced removal only when graceful raised;
direct recursive deletion only when both raised; no tier runs after a
success; a prune always follows, its outcome ignored; and the registry
write comes last. -/
theorem removeWorktree_ordered_fallback (g : GitService) (w : World)
    (p : String) (wt : WorktreeInfo) (hwt : getWorktreeInfo w p = some wt) :
    (g.gracefulRemoveOk = true →
      removeWorktree g w p =
        (untrackWorktree (w.deleteDir p) p,
         [Ev.gitRemove wt.originalRepoPath p false,
          Ev.prune wt.originalRepoPath, Ev.registryWrite]))
    ∧ (g.gracefulRemoveOk = false → g.forcedRemoveOk = true →
      removeWorktree g w p =
        (untrackWorktree (w.deleteDir p) p,
         [Ev.gitRemove wt.originalRepoPath p false,
          Ev.gitRemove wt.originalRepoPath p true,
          Ev.prune wt.originalRepoPath, Ev.registryWrite]))
    ∧ (g.gracefulRemoveOk = false → g.forcedRemoveOk = false →
      removeWorktree g w p =
        (untrackWorktree (removeDirectory w p) p,
         [Ev.gitRemove wt.originalRepoPath p false,
          Ev.gitRemove wt.originalRepoPath p true, Ev.rmDir p,
          Ev.prune wt.originalRepoPath, Ev.registryWrite]))
    ∧ (∀ b, removeWorktree ⟨g.addOk, g.gracefulRemoveOk, g.forcedRemoveOk, b⟩ w p
          = removeWorktree g w p) := by
  refine ⟨?_, ?_, ?_, fun b => rfl⟩
  · intro hg
    simp [removeWorktree, hwt, GitService.removeWorktree, hg]
  · intro hg hf
    simp [removeWorktree, hwt, GitService.removeWorktree, hg, hf]
  · intro hg hf
    simp [removeWorktree, hwt, GitService.removeWorktree, hg, hf]

/-- Witness for C3: on a concrete tracked world with both VCS tiers
failing, the trace shows graceful, then forced, then direct deletion,
then prune, then the registry write. -/
theorem removeWorktree_ordered_fallback_witness :
    removeWorktree ⟨true, false, false, true⟩ trackedWorld sampleRecord.path =
      (untrackWorktree (removeDirectory trackedWorld sampleRecord.path)
        sampleRecord.path,
       [Ev.gitRemove sampleRecord.originalRepoPath sampleRecord.path false,
        Ev.gitRemove sampleRecord.originalRepoPath sampleRecord.path true,
        Ev.rmDir sampleRecord.path,
        Ev.prune sampleRecord.originalRepoPath, Ev.registryWrite]) :=
  (removeWorktree_ordered_fallback ⟨true, false, false, true⟩ trackedWorld
    sampleRecord.path sampleRecord (by decide)).2.2.1 rfl rfl

/-- C4: for a path absent from the tracked registry, `removeWorktree`
deletes the directory only when the path matches the temp naming
convention and the directory exists; an untracked path failing either
condition is a strict no-op, and even the deleting case leaves the
registry untouched. -/
theorem removeWorktree_untracked_guard (g : GitService) (w : World)
    (p : String) (hun : getWorktreeInfo w p = none) :
    (isCommitViewTempPath p = true → w.existsDir p = true →
        removeWorktree g w p = (w.deleteDir p, [Ev.rmDir p]))
    ∧ (isCommitViewTempPath p = false → removeWorktree g w p = (w, []))
    ∧ (w.existsDir p = false → removeWorktree g w p = (w, []))
    ∧ (w.deleteDir p).registry = w.registry := by
  refine ⟨?_, ?_, ?_, rfl⟩
  · intro ht he
    simp [removeWorktree, hun, ht, he]
  · intro ht
    simp [removeWorktree, hun, ht]
  · intro he
    simp [removeWorktree, hun, he]

def orphanWorld : World :=
  { registry := [], fs := ["/tmp/temp-a"], commits := [], repoRoots := [] }

/-- Witness for C4: a concrete untracked temp-named directory is deleted;
a concrete untracked non-convention path is left alone. -/
theorem removeWorktree_untracked_guard_witness :
    removeWorktree allOkGit orphanWorld "/tmp/temp-a" =
      (orphanWorld.deleteDir "/tmp/temp-a", [Ev.rmDir "/tmp/temp-a"])
    ∧ removeWorktree allOkGit orphanWorld "/home/project" =
      (orphanWorld, []) :=
  ⟨(removeWorktree_untracked_guard allOkGit orphanWorld "/tmp/temp-a"
      (by decide)).1 (by decide) (by decide),
   (removeWorktree_untracked_guard allOkGit orphanWorld "/home/project"
      (by decide)).2.1 (by decide)⟩

theorem removeWorktree_tracked_shape (g : GitService) (w : World)
    (p : String) (wt : WorktreeInfo) (hwt : getWorktreeInfo w p = some wt) :
    ∃ X : World, X.registry = w.registry ∧ X.existsDir p = false
      ∧ (removeWorktree g w p).1 = untrackWorktree X p := by
  cases hgr : g.gracefulRemoveOk with
  | true =>
    exact ⟨w.deleteDir p, rfl, existsDir_deleteDir w p,
      by simp [removeWorktree, hwt, GitService.removeWorktree, hgr]⟩
  | false =>
    cases hfr : g.forcedRemoveOk with
    | true =>
      exact ⟨w.deleteDir p, rfl, existsDir_deleteDir w p,
        by simp [removeWorktree, hwt, GitService.removeWorktree, hgr, hfr]⟩
    | false =>
      refine ⟨removeDirectory w p, ?_, ?_,
        by simp [removeWorktree, hwt, GitService.removeWorktree, hgr, hfr]⟩
      · unfold removeDirectory
        split
        · rfl
        · rfl
      · unfold removeDirectory
        split
        · exact existsDir_deleteDir w p
        · rename_i hne
          simpa using hne

/-- C8: `removeWorktree` is idempotent in effect — after removing a
tracked path, no registry record matches it and the directory is gone;
a second call on the same path is a strict no-op (no error, no event). -/
theorem removeWorktree_idempotent (g1 g2 : GitService) (w : World)
    (p : String) (wt : WorktreeInfo) (hwt : getWorktreeInfo w p = some wt) :
    ((removeWorktree g1 w p).1.registry.filter (fun r => r.path == p) = [])
    ∧ (removeWorktree g1 w p).1.existsDir p = false
    ∧ removeWorktree g2 (removeWorktree g1 w p).1 p
        = ((removeWorktree g1 w p).1, []) := by
  obtain ⟨X, hreg, hex, hshape⟩ := removeWorktree_tracked_shape g1 w p wt hwt
  rw [hshape]
  have hex2 : (untrackWorktree X p).existsDir p = false := hex
  have hfind : getWorktreeInfo (untrackWorktree X p) p = none := by
    unfold getWorktreeInfo untrackWorktree
    dsimp only
    rw [List.find?_eq_none]
    intro r hr
    have h2 := (List.mem_filter.mp hr).2
    simp only [bne_iff_ne, ne_eq, decide_eq_true_eq] at h2
    simp [h2]
  refine ⟨?_, hex2, ?_⟩
  · show (X.registry.filter (fun r => r.path != p)).filter
        (fun r => r.path == p) = []
    rw [List.filter_eq_nil_iff]
    intro r hr
    have h2 := (List.mem_filter.mp hr).2
    simp only [bne_iff_ne, ne_eq, decide_eq_true_eq] at h2
    simp [h2]
  · unfold removeWorktree
    rw [hfind]
    dsimp only
    rw [hex2]
    simp

/-- Witness for C8 on a concrete tracked world. -/
theorem removeWorktree_idempotent_witness :
    ((removeWorktree allOkGit trackedWorld sampleRecord.path).1.registry.filter
        (fun r => r.path == sampleRecord.path) = [])
    ∧ (removeWorktree allOkGit trackedWorld sampleRecord.path).1.existsDir
        sampleRecord.path = false
    ∧ removeWorktree allOkGit (removeWorktree allOkGit trackedWorld
        sampleRecord.path).1 sampleRecord.path
        = ((removeWorktree allOkGit trackedWorld sampleRecord.path).1, []) :=
  removeWorktree_idempotent allOkGit allOkGit trackedWorld sampleRecord.path
    sampleRecord (by decide)

/-! Claim C9. -/

/-- C9: `cleanupStaleWorktrees` iterates the snapshot of the registry and
applies, per record, the ordered policy — untrack with no filesystem
action when the checkout directory is gone; delete the checkout then
untrack when the origin repository is gone; otherwise attempt full
removal only when the record is older than the fixed 24-hour threshold
(a younger record with both directories present is left alone); the
counter advances exactly on the records acted upon.  The function is
total (the source swallows per-record failures). -/
theorem cleanupStale_ordered_policy (o : WorktreeInfo → GitService) (now : Nat) :
    (∀ w cnt (wt : WorktreeInfo), w.existsDir wt.path = false →
        cleanupStep o now (w, cnt) wt = (untrackWorktree w wt.path, cnt + 1))
    ∧ (∀ w cnt (wt : WorktreeInfo), w.existsDir wt.path = true →
        w.existsDir wt.originalRepoPath = false →
        cleanupStep o now (w, cnt) wt =
          (untrackWorktree (removeDirectory w wt.path) wt.path, cnt + 1))
    ∧ (∀ w cnt (wt : WorktreeInfo), w.existsDir wt.path = true →
        w.existsDir wt.originalRepoPath = true →
        now - wt.createdAt > maxAgeMs →
        cleanupStep o now (w, cnt) wt =
          ((removeWorktree (o wt) w wt.path).1, cnt + 1))
    ∧ (∀ w cnt (wt : WorktreeInfo), w.existsDir wt.path = true →
        w.existsDir wt.originalRepoPath = true →
        now - wt.createdAt ≤ maxAgeMs →
        cleanupStep o now (w, cnt) wt = (w, cnt))
    ∧ (∀ w, cleanupStaleWorktrees o w now
          = w.registry.foldl (cleanupStep o now) (w, 0)) := by
  refine ⟨?_, ?_, ?_, ?_, fun w => rfl⟩
  · intro w cnt wt h
    simp [cleanupStep, h]
  · intro w cnt wt h1 h2
    simp [cleanupStep, h1, h2]
  · intro w cnt wt h1 h2 h3
    simp [cleanupStep, h1, h2, h3]
  · intro w cnt wt h1 h2 h3
    have h4 : ¬ (now - wt.createdAt > maxAgeMs) := by omega
    simp [cleanupStep, h1, h2, h4]

def goneWorld : World :=
  { registry := [sampleRecord], fs := [], commits := [], repoRoots := [] }

def orphanRepoWorld : World :=
  { registry := [sampleRecord], fs := [sampleRecord.path], commits := [],
    repoRoots := [] }

def liveWorld : World :=
  { registry := [sampleRecord], fs := [sampleRecord.path, "/repo"],
    commits := [("/repo", "abc1234")], repoRoots := [("/repo", "/repo")] }

/-- Witness for C9: the three action cases and the leave-alone case of the
per-record policy, each on a concrete world. -/
theorem cleanupStale_ordered_policy_witness :
    cleanupStep (fun _ => allOkGit) 10 (goneWorld, 0) sampleRecord =
      (untrackWorktree goneWorld sampleRecord.path, 1)
    ∧ cleanupStep (fun _ => allOkGit) 10 (orphanRepoWorld, 0) sampleRecord =
      (untrackWorktree (removeDirectory orphanRepoWorld sampleRecord.path)
        sampleRecord.path, 1)
    ∧ cleanupStep (fun _ => allOkGit) 100000000 (liveWorld, 0) sampleRecord =
      ((removeWorktree allOkGit liveWorld sampleRecord.path).1, 1)
    ∧ cleanupStep (fun _ => allOkGit) 10 (liveWorld, 0) sampleRecord =
      (liveWorld, 0) :=
  ⟨(cleanupStale_ordered_policy (fun _ => allOkGit) 10).1 goneWorld 0
      sampleRecord (by decide),
   (cleanupStale_ordered_policy (fun _ => allOkGit) 10).2.1 orphanRepoWorld 0
      sampleRecord (by decide) (by decide),
   (cleanupStale_ordered_policy (fun _ => allOkGit) 100000000).2.2.1 liveWorld 0
      sampleRecord (by decide) (by decide) (by decide),
   (cleanupStale_ordered_policy (fun _ => allOkGit) 10).2.2.2.1 liveWorld 0
      sampleRecord (by decide) (by decide) (by decide)⟩

/-! Claim C6. -/

theorem linkEntry_outcome_count (ok : Bool) (srcDir tgtDir rel : String)
    (t : EntryType) (fs : LinkFs) (res : FileCopyResult) :
    (linkEntry ok srcDir tgtDir rel t fs res).2.linked.length
      + (linkEntry ok srcDir tgtDir rel t fs res).2.skipped.length
      + (linkEntry ok srcDir tgtDir rel t fs res).2.failed.length
      = res.linked.length + res.skipped.length + res.failed.length + 1 := by
  unfold linkEntry
  dsimp only
  split
  · simp
    omega
  · split
    · simp
      omega
    · simp
      omega

theorem linkAll_outcome_count (okf : String → Bool) (srcDir tgtDir : String)
    (t : EntryType) (rels : List String) :
    ∀ fs res,
      (linkAll okf srcDir tgtDir t rels fs res).2.linked.length
        + (linkAll okf srcDir tgtDir t rels fs res).2.skipped.length
        + (linkAll okf srcDir tgtDir t rels fs res).2.failed.length
        = res.linked.length + res.skipped.length + res.failed.length
            + rels.length := by
  induction rels with
  | nil =>
    intro fs res
    simp [linkAll]
  | cons r rs ih =>
    intro fs res
    rw [linkAll]
    rw [ih]
    have h1 := linkEntry_outcome_count (okf r) srcDir tgtDir r t fs res
    simp only [List.length_cons]
    omega

/-- C6: link execution never overwrites — a pre-existing target entry is
recorded `skipped` with the filesystem returned untouched (its content
byte-for-byte unchanged); a symlink-creation failure records the entry in
`failed` and appends a warning; and the loop over a plan is best-effort:
every planned entry contributes exactly one outcome, so no failure aborts
the remaining entries. -/
theorem linkEntry_never_clobbers (ok : Bool) (srcDir tgtDir rel : String)
    (t : EntryType) (fs : LinkFs) (res : FileCopyResult) :
    (lfsExists fs (tgtDir ++ "/" ++ rel) = true →
        linkEntry ok srcDir tgtDir rel t fs res =
          (fs, { res with skipped := res.skipped ++ [displayNameOf t rel] }))
    ∧ (lfsExists fs (tgtDir ++ "/" ++ rel) = false → ok = false →
        linkEntry ok srcDir tgtDir rel t fs res =
          (ensureParentDir fs (tgtDir ++ "/" ++ rel),
           { res with
              failed := res.failed ++ [displayNameOf t rel],
              warnings := res.warnings ++
                ["Failed to link " ++ displayNameOf t rel ++ ": symlink error"] }))
    ∧ (∀ okf rels fs0 (res0 : FileCopyResult),
        (linkAll okf srcDir tgtDir t rels fs0 res0).2.linked.length
          + (linkAll okf srcDir tgtDir t rels fs0 res0).2.skipped.length
          + (linkAll okf srcDir tgtDir t rels fs0 res0).2.failed.length
          = res0.linked.length + res0.skipped.length + res0.failed.length
              + rels.length) := by
  refine ⟨?_, ?_, ?_⟩
  · intro hex
    simp [linkEntry, hex]
  · intro hex hok
    simp [linkEntry, hex, hok]
  · intro okf rels fs0 res0
    exact linkAll_outcome_count okf srcDir tgtDir t rels fs0 res0

/-- Witness for C6: a concrete pre-existing target is skipped with the
filesystem unchanged; a concrete failing symlink is recorded failed with
a warning. -/
theorem linkEntry_never_clobbers_witness :
    linkEntry true "/src" "/dst" "x.env" EntryType.file
        [("/dst/x.env", FsNode.fileNode "keep")] ⟨[], [], [], []⟩ =
      ([("/dst/x.env", FsNode.fileNode "keep")], ⟨[], ["x.env"], [], []⟩)
    ∧ linkEntry false "/src" "/dst" "y.env" EntryType.file [] ⟨[], [], [], []⟩ =
      (ensureParentDir [] "/dst/y.env",
       ⟨[], [], ["y.env"], ["Failed to link y.env: symlink error"]⟩) :=
  ⟨(linkEntry_never_clobbers true "/src" "/dst" "x.env" EntryType.file
      [("/dst/x.env", FsNode.fileNode "keep")] ⟨[], [], [], []⟩).1 (by decide),
   (linkEntry_never_clobbers false "/src" "/dst" "y.env" EntryType.file
      [] ⟨[], [], [], []⟩).2.1 (by decide) rfl⟩

/-! Claim C5. -/

/-- A file named `f` sits in the tree `e` below the chain of directory
names `ds`. -/
inductive TreeFile : FsTree → List String → String → Prop where
  | file (f : String) : TreeFile (FsTree.file f) [] f
  | dir {e : FsTree} {cs : List FsTree} {ds : List String} {f : String}
      (d : String) (he : e ∈ cs) (h : TreeFile e ds f) :
      TreeFile (FsTree.dir d cs) (d :: ds) f

/-- The relative path reported for a file `f` reached from `cur` through
the directory chain `ds`. -/
def joinAll (cur : String) (ds : List String) (f : String) : String :=
  joinRel (ds.foldl joinRel cur) f

/-- Every directory on the chain is neither a to-be-linked (skipped)
directory nor a VCS metadata directory. -/
def dirsAllowed (skipDirs ds : List String) : Prop :=
  ∀ d ∈ ds, skipDirs.contains d = false ∧ d.startsWith ".git" = false

mutual

theorem findEntry_mem_iff (patterns skipDirs : List String) (cur r : String) :
    ∀ (e : FsTree), r ∈ findEntry patterns skipDirs cur e ↔
      ∃ ds f, TreeFile e ds f
        ∧ patterns.any (fun p => matchesGlob f p) = true
        ∧ dirsAllowed skipDirs ds
        ∧ r = joinAll cur ds f
  | .file n => by
    simp only [findEntry]
    split
    · rename_i hm
      constructor
      · intro hr
        have hr' : r = joinRel cur n := List.mem_singleton.mp hr
        exact ⟨[], n, .file n, hm, by simp [dirsAllowed], hr'⟩
      · rintro ⟨ds, f, htf, _, _, hr⟩
        cases htf
        simp [hr, joinAll]
    · rename_i hm
      simp only [List.not_mem_nil, false_iff, not_exists]
      rintro ds f ⟨htf, hmatch, _, _⟩
      cases htf
      exact hm hmatch
  | .dir n cs => by
    simp only [findEntry]
    split
    · rename_i hskip
      simp only [List.not_mem_nil, false_iff, not_exists]
      rintro ds f ⟨htf, _, hok, _⟩
      cases htf with
      | dir d he h =>
        have hn := hok n (by simp)
        rw [hn.1, hn.2] at hskip
        simp at hskip
    · rename_i hskip
      rw [findList_mem_iff patterns skipDirs (joinRel cur n) r cs]
      have hboth : skipDirs.contains n = false ∧ n.startsWith ".git" = false := by
        constructor
        · cases hc : skipDirs.contains n
          · rfl
          · exact absurd (by rw [hc]; simp) hskip
        · cases hc : n.startsWith ".git"
          · rfl
          · exact absurd (by rw [hc]; simp) hskip
      constructor
      · rintro ⟨e, he, ds, f, htf, hm, hok, hr⟩
        refine ⟨n :: ds, f, .dir n he htf, hm, ?_, hr⟩
        intro d hd
        rcases List.mem_cons.mp hd with rfl | hd'
        · exact hboth
        · exact hok d hd'
      · rintro ⟨ds, f, htf, hm, hok, hr⟩
        cases htf with
        | dir d he h =>
          refine ⟨_, he, _, f, h, hm, ?_, hr⟩
          intro d' hd'
          exact hok d' (List.mem_cons_of_mem _ hd')

theorem findList_mem_iff (patterns skipDirs : List String) (cur r : String) :
    ∀ (es : List FsTree), r ∈ findList patterns skipDirs cur es ↔
      ∃ e ∈ es, ∃ ds f, TreeFile e ds f
        ∧ patterns.any (fun p => matchesGlob f p) = true
        ∧ dirsAllowed skipDirs ds
        ∧ r = joinAll cur ds f
  | [] => by simp [findList]
  | e :: es => by
    rw [findList, List.mem_append, findEntry_mem_iff patterns skipDirs cur r e,
      findList_mem_iff patterns skipDirs cur r es]
    constructor
    · rintro (⟨ds, f, rest⟩ | ⟨e', he', rest⟩)
      · exact ⟨e, List.mem_cons_self e es, ds, f, rest⟩
      · exact ⟨e', List.mem_cons_of_mem e he', rest⟩
    · rintro ⟨e', he', rest⟩
      rcases List.mem_cons.mp he' with rfl | he''
      · exact Or.inl rest
      · exact Or.inr ⟨e', he'', rest⟩

end

/-- C5: the recursive file-matching pass includes exactly the files, at any
depth below the source root, whose name matches some file glob pattern and
whose directory chain avoids both the already-selected to-be-linked
directories and the `.git` metadata directories, each reported as a path
relative to the root; the contents of a skipped subtree are invisible to
the result, and a root directory matching a directory pattern (such as
`node_modules`) is in the selected list that `linkConfigFiles` passes as
the skip set. -/
theorem recursiveFileMatch_characterization :
    (∀ patterns skipDirs (es : List FsTree) (r : String),
        r ∈ findList patterns skipDirs "" es ↔
          ∃ e ∈ es, ∃ ds f, TreeFile e ds f
            ∧ patterns.any (fun p => matchesGlob f p) = true
            ∧ dirsAllowed skipDirs ds
            ∧ r = joinAll "" ds f)
    ∧ (∀ patterns skipDirs cur name (cs cs' es : List FsTree),
        skipDirs.contains name = true →
          findList patterns skipDirs cur (FsTree.dir name cs :: es)
            = findList patterns skipDirs cur (FsTree.dir name cs' :: es))
    ∧ (∀ dirPatterns (entries cs : List FsTree),
        FsTree.dir "node_modules" cs ∈ entries →
        dirPatterns.any (fun p => matchesGlob "node_modules" p) = true →
        "node_modules" ∈ findMatchingDirs entries dirPatterns) := by
  refine ⟨fun patterns skipDirs es r =>
    findList_mem_iff patterns skipDirs "" r es, ?_, ?_⟩
  · intro patterns skipDirs cur name cs cs' es h
    have h' : name ∈ skipDirs := by simpa using h
    rw [findList, findList]
    simp [findEntry, h']
  · intro dirPatterns entries cs hmem hmatch
    unfold findMatchingDirs
    refine List.mem_map.mpr ⟨FsTree.dir "node_modules" cs, ?_, rfl⟩
    refine List.mem_filter.mpr ⟨List.mem_filter.mpr ⟨hmem, rfl⟩, ?_⟩
    simpa [FsTree.name] using hmatch

/-- Witness for C5: with `node_modules` selected, the files inside a
concrete `node_modules` subtree are invisible to the recursive match, and
`node_modules` is selected from a concrete root listing. -/
theorem recursiveFileMatch_characterization_witness :
    findList [".env"] ["node_modules"] ""
        [FsTree.dir "node_modules" [FsTree.file ".env"], FsTree.file ".env"]
      = findList [".env"] ["node_modules"] ""
        [FsTree.dir "node_modules" [], FsTree.file ".env"]
    ∧ "node_modules" ∈ findMatchingDirs [FsTree.dir "node_modules" []]
        ["node_modules"] :=
  ⟨recursiveFileMatch_characterization.2.1 [".env"] ["node_modules"] ""
      "node_modules" [FsTree.file ".env"] [] [FsTree.file ".env"] (by decide),
   recursiveFileMatch_characterization.2.2 ["node_modules"]
      [FsTree.dir "node_modules" []] [] (List.mem_singleton.mpr rfl) (by decide)⟩

end CommitView
